import Mathlib

/-!
Verification of the iterative-refinement engine of math-speak-converter.

This file gives a shallow embedding of `src/services/mcp.ts` (the `useMCP`
refinement engine, its response parser `extractMCPComponents`, its prompt
builders and its in-memory cache) and of the LaTeX validator
`validateLatexMCP` from `src/services/math-mcp.ts`, together with theorems
about the embedded definitions.

Modelling conventions:
- JavaScript strings are `String`; numbers that hold millisecond clock
  readings are `Int`; the confidence values are `ℚ` (JS floats; the code only
  compares and copies them, no float rounding is exercised).
- `undefined`-able fields are `Option`; the JS truthiness test `x || d` on a
  possibly-absent number (where `0` is falsy) is `jsOrConf`.
- Asynchrony: one invocation of `useMCP` is a deterministic function of an
  environment `MCPEnv`: the outcomes of the successive LLM calls
  (`responses`, indexed by how many calls were issued before), the wall-clock
  delay until the processing promise settles (`procDelay`), and the
  `Date.now` readings at the start and at settlement.  The `setTimeout` race
  of `Promise.race` is modelled by comparing `procDelay` with the timeout.
  In JavaScript the losing processing promise keeps running to completion,
  so its side effects (the cache write, the remaining LLM calls) happen
  regardless of the race; the model reflects that.
-/

/-! ### String utilities (models of the JS primitives the source uses) -/

/-- Index of the first occurrence of `pat` in `hay`, if any. -/
def findSub (pat : List Char) : List Char → Option Nat
  | [] => if pat = [] then some 0 else none
  | c :: rest =>
    if pat.isPrefixOf (c :: rest) then some 0
    else (findSub pat rest).map (· + 1)

/-- Model of `response.match(/<tag>([\s\S]*?)<\/tag>/i)`: find the first
case-insensitive occurrence of the opening tag, then the shortest body up to
the first case-insensitive occurrence of the closing tag (the lazy `*?`), and
return the untrimmed capture.  Case-insensitivity is modelled by searching in
the character-wise lowercased text while extracting from the original. -/
def matchTag (response tagOpen tagClose : String) : Option String :=
  let src := response.toList
  let hay := src.map Char.toLower
  match findSub tagOpen.toList hay with
  | none => none
  | some i =>
    let bodyStart := i + tagOpen.length
    match findSub tagClose.toList (hay.drop bodyStart) with
    | none => none
    | some j => some (String.mk ((src.drop bodyStart).take j))

/-- Value of a list of ASCII digits. -/
def digitsVal (l : List Char) : Nat :=
  l.foldl (fun a c => a * 10 + (c.toNat - 48)) 0

/-- Model of JavaScript `parseFloat` applied to an already-trimmed string:
optional sign, decimal digits with an optional fractional part, optional
exponent; `none` models `NaN` (no number could be parsed).  Trailing garbage
is ignored, as `parseFloat` ignores it. -/
def parseFloat? (s : String) : Option ℚ :=
  let cs0 := s.toList
  let cs1 : List Char := match cs0 with
    | '-' :: rest => rest
    | '+' :: rest => rest
    | _ => cs0
  let intPart := cs1.takeWhile Char.isDigit
  let cs2 := cs1.drop intPart.length
  let fracPart : List Char := match cs2 with
    | '.' :: rest => rest.takeWhile Char.isDigit
    | _ => []
  let cs3 : List Char := match cs2 with
    | '.' :: rest => rest.drop (rest.takeWhile Char.isDigit).length
    | _ => cs2
  if intPart = [] ∧ fracPart = [] then none
  else
    let num0 : Int := (match cs0 with
      | '-' :: _ => -1
      | _ => 1) *
      ((digitsVal intPart : Int) * (10 : Int) ^ fracPart.length + (digitsVal fracPart : Int))
    let den0 : Nat := 10 ^ fracPart.length
    let expDigits : List Char := match cs3 with
      | 'e' :: '-' :: ds => ds.takeWhile Char.isDigit
      | 'e' :: '+' :: ds => ds.takeWhile Char.isDigit
      | 'e' :: ds => ds.takeWhile Char.isDigit
      | 'E' :: '-' :: ds => ds.takeWhile Char.isDigit
      | 'E' :: '+' :: ds => ds.takeWhile Char.isDigit
      | 'E' :: ds => ds.takeWhile Char.isDigit
      | _ => []
    let expNeg : Bool := match cs3 with
      | 'e' :: '-' :: _ => true
      | 'E' :: '-' :: _ => true
      | _ => false
    let e : Nat := if expDigits = [] then 0 else digitsVal expDigits
    if expNeg then some (mkRat num0 (den0 * 10 ^ e))
    else some (mkRat (num0 * (10 : Int) ^ e) den0)

/-- Rendering of a rational as a string; stands for the JavaScript
number-to-string conversion used by the template literal that builds the
cache key.  Any injective rendering is adequate there, since the engine
treats the key as opaque. -/
def numToStr (q : ℚ) : String :=
  if q.den = 1 then toString q.num
  else toString q.num ++ "/" ++ toString q.den

/-- Model of JavaScript `Number.prototype.toFixed(2)` (round to nearest,
two decimal places), used only inside the refinement prompt text. -/
def toFixed2 (q : ℚ) : String :=
  let n : Nat := (q.num.natAbs * 100 * 2 + q.den) / (2 * q.den)
  let sign := if q < 0 ∧ n ≠ 0 then "-" else ""
  sign ++ toString (n / 100) ++ "." ++
    (if n % 100 < 10 then "0" else "") ++ toString (n % 100)

/-! ### Data model (`mcp.ts` interfaces) -/

/-- Interface `ValidationResult` of `mcp.ts`. -/
structure ValidationResult where
  valid : Bool
  feedback : Option String := none
  confidence : Option ℚ := none
deriving DecidableEq, Repr

/-- Interface `MCPResult<T>` of `mcp.ts`. -/
structure MCPResult (T : Type) where
  finalResult : T
  iterations : Nat
  reasoning : String
  initialResult : Option T := none
  confidence : Option ℚ := none
  model : String
  processingTimeMs : Int
deriving DecidableEq, Repr

/-- Interface `CacheEntry<T>` of `mcp.ts`. -/
structure CacheEntry (T : Type) where
  result : MCPResult T
  timestamp : Int
  task : String
deriving DecidableEq, Repr

/-- Interface `MCPOptions` of `mcp.ts` (the `verbose` flag only controls
console logging and is omitted). -/
structure MCPOptions where
  maxIterations : Option Nat := none
  temperature : Option ℚ := none
  model : Option String := none
  fallbackModel : Option String := none
  timeout : Option Nat := none
  useCache : Option Bool := none
  confidenceThreshold : Option ℚ := none
deriving Repr

/-- Result record of `extractMCPComponents`. -/
structure MCPComponents where
  thinking : String
  result : String
  confidence : ℚ
deriving DecidableEq, Repr

/-- Model of JavaScript `String.prototype.trim` (drop leading and trailing
whitespace), written over the character list so that it evaluates inside the
kernel; the exotic Unicode space code points are not exercised here. -/
def jsTrim (s : String) : String :=
  String.mk (((s.toList.dropWhile Char.isWhitespace).reverse.dropWhile
    Char.isWhitespace).reverse)

/-! ### Response parser (`extractMCPComponents`, mcp.ts lines 296-322) -/

/-- Shallow embedding of `extractMCPComponents`.  The three tag extractions,
the confidence validation (`!isNaN && >= 0 && <= 1`, else the 0.5 default)
and the degenerate branch (`!thinking && !result`, where an empty extracted
string is falsy) follow the source line by line. -/
def extractMCPComponents (response : String) : MCPComponents :=
  let thinking := ((matchTag response "<thinking>" "</thinking>").map jsTrim).getD ""
  let confidence : ℚ :=
    match matchTag response "<confidence>" "</confidence>" with
    | none => mkRat 1 2
    | some raw =>
      match parseFloat? (jsTrim raw) with
      | some c => if 0 ≤ c ∧ c ≤ 1 then c else mkRat 1 2
      | none => mkRat 1 2
  let result := ((matchTag response "<result>" "</result>").map jsTrim).getD ""
  if thinking = "" ∧ result = "" then
    ⟨"", jsTrim response, confidence⟩
  else
    ⟨thinking, result, confidence⟩

/-! ### Prompt builders (`constructMCPPrompt`, `constructRefinementPrompt`) -/

/-- Shallow embedding of `constructMCPPrompt` (mcp.ts lines 220-247). -/
def constructMCPPrompt (task input : String) : String :=
  "You are a specialized mathematical reasoning assistant that follows the Model Context Protocol (MCP).\nYour task is to " ++ task ++ ".\n\nFollow these steps:\n1. Carefully analyze the input\n2. Identify the key components and their relationships\n3. Apply mathematical reasoning to solve the problem\n4. Ensure accuracy and precision in your work\n5. Double-check your solution for errors\n6. Assign a confidence score (0.0-1.0) to your solution\n\nIMPORTANT: Your response MUST follow this exact format:\n<thinking>\n[Detail your step-by-step reasoning process]\n</thinking>\n\n<confidence>\n[A number between 0.0 and 1.0 indicating your confidence in this result]\n</confidence>\n\n<result>\n[ONLY the final result with no explanations or additional text]\n</result>\n\nInput:\n" ++ input

/-- Shallow embedding of `constructRefinementPrompt` (mcp.ts lines 252-291). -/
def constructRefinementPrompt (task input previousResult feedback previousThinking : String)
    (confidence : ℚ) : String :=
  "You are a specialized mathematical reasoning assistant that follows the Model Context Protocol (MCP).\nYour task is to " ++ task ++ ".\n\nYour previous attempt had issues. Here\x27s the feedback:\n" ++ feedback ++ "\n\nCurrent confidence score: " ++ toFixed2 confidence ++ "\n\nHere was your previous thinking:\n" ++ previousThinking ++ "\n\nYour previous result was:\n" ++ previousResult ++ "\n\nPlease refine your approach and provide a more accurate result.\n\nIMPORTANT: Your response MUST follow this exact format:\n<thinking>\n[Detail your step-by-step refinement process, explaining how you\x27re addressing the issues]\n</thinking>\n\n<confidence>\n[A number between 0.0 and 1.0 indicating your confidence in this refined result]\n</confidence>\n\n<result>\n[ONLY the improved final result with no explanations or additional text]\n</result>\n\nInput:\n" ++ input

/-! ### Cache (`mcpCache`, `CACHE_TTL_MS`, the lookup block of `useMCP`) -/

/-- The in-memory `Map` backing `mcpCache`, as an association list (JS `Map`
iteration order is never observed by the engine). -/
abbrev CacheMap (T : Type) := List (String × CacheEntry T)

/-- `CACHE_TTL_MS = 3600000` (one hour), mcp.ts line 42. -/
def CACHE_TTL_MS : Int := 3600000

/-- `mcpCache.get(k)` (also covers `mcpCache.has(k)`). -/
def cacheFind {T : Type} (m : CacheMap T) (k : String) : Option (CacheEntry T) :=
  match m with
  | [] => none
  | (k0, e) :: rest => if k0 = k then some e else cacheFind rest k

/-- `mcpCache.delete(k)`. -/
def cacheDelete {T : Type} (m : CacheMap T) (k : String) : CacheMap T :=
  match m with
  | [] => []
  | (k0, e) :: rest => if k0 = k then cacheDelete rest k else (k0, e) :: cacheDelete rest k

/-- `mcpCache.set(k, e)` (insert or overwrite). -/
def cacheSet {T : Type} (m : CacheMap T) (k : String) (e : CacheEntry T) : CacheMap T :=
  (k, e) :: cacheDelete m k

/-- The composite cache key of mcp.ts line 72,
`` `${task}_${input}_${model}_${temperature}` ``; `tempStr` is the
stringified temperature. -/
def cacheKey (task input model tempStr : String) : String :=
  task ++ "_" ++ input ++ "_" ++ model ++ "_" ++ tempStr

/-- Shallow embedding of the cache-check block of `useMCP` (mcp.ts lines
71-82): on a fresh entry with matching task the cached result is returned;
otherwise a present entry is deleted and the main procedure runs.  `now` is
the `Date.now()` reading of line 76. -/
def mcpCacheCheck {T : Type} (useCache : Bool) (cache : CacheMap T)
    (key task : String) (now : Int) : Option (MCPResult T) × CacheMap T :=
  if useCache then
    match cacheFind cache key with
    | none => (none, cache)
    | some entry =>
      if now - entry.timestamp < CACHE_TTL_MS ∧ entry.task = task then
        (some entry.result, cache)
      else
        (none, cacheDelete cache key)
  else (none, cache)

/-! ### Refinement engine (`useMCP`, mcp.ts lines 53-215) -/

/-- JavaScript `c || d` applied to a possibly-absent confidence number:
`undefined` and `0` are falsy.  Used at mcp.ts lines 125 and 158. -/
def jsOrConf (c : Option ℚ) (d : ℚ) : ℚ :=
  match c with
  | none => d
  | some x => if x = 0 then d else x

deriving instance DecidableEq for Except

/-- One request issued by `sendMCPRequest`, with the outcome the external
LLM produced for it (`Except.error ()` models a rejected call). -/
structure MCPRequest where
  prompt : String
  model : String
  temperature : ℚ
  response : Except Unit String
deriving DecidableEq, Repr

/-- The mutable state of the refinement `while` loop (mcp.ts lines 128-160),
plus the bookkeeping the model exposes: the number of LLM calls issued so
far (`callCount`, which indexes the environment), the trace of issued
requests, and the list of `Refinement Iteration N` headings appended to the
reasoning. -/
structure MCPLoopState (T : Type) where
  processedResult : T
  validation : ValidationResult
  confidence : ℚ
  currentReasoning : String
  iterations : Nat
  callCount : Nat
  requests : List MCPRequest
  markers : List String
deriving DecidableEq, Repr

/-- One pass of the refinement loop body on a response that arrived
(mcp.ts lines 129-159): send the refinement prompt, parse, append the
labelled reasoning when the refined thinking is nonempty, reprocess,
revalidate and update the confidence with the falsy-guarded `||`. -/
def refineStep {T : Type} (processOutput : String → T)
    (validateResult : T → ValidationResult) (task input rawResult model : String)
    (temperature : ℚ) (st : MCPLoopState T) (resp : String) : MCPLoopState T :=
  let reqPrompt := constructRefinementPrompt task input rawResult
    (st.validation.feedback.getD "The result needs improvement.")
    st.currentReasoning st.confidence
  let refinement := extractMCPComponents resp
  let heading := "\n\nRefinement Iteration " ++ toString st.iterations ++ ":\n"
  let newResult := processOutput refinement.result
  let newValidation := validateResult newResult
  { processedResult := newResult,
    validation := newValidation,
    confidence := jsOrConf newValidation.confidence st.confidence,
    currentReasoning :=
      if refinement.thinking ≠ "" then
        st.currentReasoning ++ heading ++ refinement.thinking
      else st.currentReasoning,
    iterations := st.iterations + 1,
    callCount := st.callCount + 1,
    requests := st.requests ++ [⟨reqPrompt, model, temperature, .ok resp⟩],
    markers :=
      if refinement.thinking ≠ "" then st.markers ++ [heading]
      else st.markers }

/-- Shallow embedding of the refinement `while` loop (mcp.ts lines 128-160).
Structural recursion on `fuel`; the engine calls it with `fuel` at least
`maxIterations`, which dominates the loop's own bound, so the fuel never
runs out before the guard fails.  Returns the final state and `false` when
an LLM call rejected (the exception then reaches the `catch` of line 183). -/
def refineLoop {T : Type} (processOutput : String → T)
    (validateResult : T → ValidationResult) (responses : Nat → Except Unit String)
    (task input rawResult model : String) (temperature confidenceThreshold : ℚ)
    (maxIterations : Nat) : Nat → MCPLoopState T → MCPLoopState T × Bool
  | 0, st => (st, true)
  | fuel + 1, st =>
    if (st.validation.valid = false ∨ st.confidence < confidenceThreshold) ∧
        st.iterations < maxIterations then
      let reqPrompt := constructRefinementPrompt task input rawResult
        (st.validation.feedback.getD "The result needs improvement.")
        st.currentReasoning st.confidence
      match responses st.callCount with
      | .error _ =>
        ({ st with
            callCount := st.callCount + 1,
            requests := st.requests ++ [⟨reqPrompt, model, temperature, .error ()⟩] },
          false)
      | .ok resp =>
        refineLoop processOutput validateResult responses task input rawResult model
          temperature confidenceThreshold maxIterations fuel
          (refineStep processOutput validateResult task input rawResult model
            temperature st resp)
    else (st, true)

/-- Outcome of the main processing promise (the async IIFE of mcp.ts lines
99-206): success carries the built `MCPResult` and whether it came from the
fallback branch (which returns from the `catch` block); `failure` models a
propagated error. -/
inductive ProcOutcome (T : Type) where
  | success (result : MCPResult T) (viaFallback : Bool)
  | failure
deriving DecidableEq, Repr

/-- Return value of the main processing promise together with the model's
bookkeeping: the trace of issued LLM requests and the refinement headings. -/
structure ProcReturn (T : Type) where
  outcome : ProcOutcome T
  requests : List MCPRequest
  markers : List String
deriving DecidableEq, Repr

/-- The fallback branch of the `catch` handler (mcp.ts lines 185-203):
one non-iterative request to the fallback model; its own rejection
propagates.  `callCount` indexes the next LLM call. -/
def runFallback {T : Type} (processOutput : String → T)
    (responses : Nat → Except Unit String) (task input fallbackModel : String)
    (temperature : ℚ) (startTime endTime : Int) (callCount : Nat)
    (requests : List MCPRequest) (markers : List String) : ProcReturn T :=
  let fbPrompt := constructMCPPrompt task input
  match responses callCount with
  | .error _ =>
    ⟨.failure, requests ++ [⟨fbPrompt, fallbackModel, temperature, .error ()⟩], markers⟩
  | .ok resp =>
    let comps := extractMCPComponents resp
    ⟨.success
        { finalResult := processOutput comps.result,
          iterations := 1,
          reasoning := "[FALLBACK MODEL] " ++ comps.thinking,
          initialResult := none,
          confidence := some (mkRat 1 2),
          model := fallbackModel,
          processingTimeMs := endTime - startTime }
        true,
      requests ++ [⟨fbPrompt, fallbackModel, temperature, .ok resp⟩], markers⟩

/-- Shallow embedding of the main processing promise of `useMCP` (mcp.ts
lines 99-206), after option resolution and the cache check: the initial
request, the refinement loop, the result construction of lines 162-170, and
the `catch` handler of lines 183-205.  The `catch` triggers the fallback
exactly when `usedModel !== fallbackModel && fallbackModel` (truthiness of a
string: nonempty); `usedModel` still equals the primary `model` when the
`catch` is entered.  The refinement prompt always embeds the raw result of
the *initial* response (`rawResult` is never reassigned in the source). -/
def mcpMain {T : Type} (processOutput : String → T)
    (validateResult : T → ValidationResult) (responses : Nat → Except Unit String)
    (task input model fallbackModel : String) (temperature confidenceThreshold : ℚ)
    (maxIterations : Nat) (startTime endTime : Int) : ProcReturn T :=
  let initialPrompt := constructMCPPrompt task input
  match responses 0 with
  | .error _ =>
    let reqs := [⟨initialPrompt, model, temperature, .error ()⟩]
    if model ≠ fallbackModel ∧ fallbackModel ≠ "" then
      runFallback processOutput responses task input fallbackModel temperature
        startTime endTime 1 reqs []
    else ⟨.failure, reqs, []⟩
  | .ok resp =>
    let comps := extractMCPComponents resp
    let processedResult := processOutput comps.result
    let validation := validateResult processedResult
    match refineLoop processOutput validateResult responses task input comps.result
        model temperature confidenceThreshold maxIterations maxIterations
        { processedResult := processedResult,
          validation := validation,
          confidence := jsOrConf validation.confidence (mkRat 1 2),
          currentReasoning := comps.thinking,
          iterations := 1,
          callCount := 1,
          requests := [⟨initialPrompt, model, temperature, .ok resp⟩],
          markers := [] } with
    | (st, true) =>
      ⟨.success
          { finalResult := st.processedResult,
            iterations := st.iterations,
            reasoning := st.currentReasoning,
            initialResult := some processedResult,
            confidence := some st.confidence,
            model := model,
            processingTimeMs := endTime - startTime }
          false,
        st.requests, st.markers⟩
    | (st, false) =>
      if model ≠ fallbackModel ∧ fallbackModel ≠ "" then
        runFallback processOutput responses task input fallbackModel temperature
          startTime endTime st.callCount st.requests st.markers
      else ⟨.failure, st.requests, st.markers⟩

/-- Errors a `useMCP` invocation can propagate: the timeout of the race at
mcp.ts line 209, or an upstream failure rethrown at lines 204/213. -/
inductive MCPError where
  | timeout
  | upstream
deriving DecidableEq, Repr

/-- Environment of one `useMCP` invocation: the outcome of the n-th LLM call
issued by the invocation, the wall-clock delay (ms) until the processing
promise settles, and the `Date.now` readings at the start (cache check /
`startTime`, lines 76 and 84) and at settlement (lines 169/176/201). -/
structure MCPEnv where
  responses : Nat → Except Unit String
  procDelay : Nat
  startTime : Int
  endTime : Int

/-- What one `useMCP` invocation leaves behind: the value returned (or error
propagated) to the caller, the cache after all activity of the invocation
has settled (including any write by a processing promise that lost the
race), and the trace of LLM requests the invocation issued. -/
structure MCPCallResult (T : Type) where
  returned : Except MCPError (MCPResult T)
  cache : CacheMap T
  requests : List MCPRequest

/-- The body of `useMCP` after option resolution and the cache check: runs
the main procedure, races it against the timeout (`Promise.race`, line 209),
and performs the cache store of lines 172-179.  The store is executed by the
processing promise itself whenever the primary path succeeds with caching
enabled — also when the promise lost the race, since `Promise.race` does not
cancel the loser. -/
def useMCPProceed {T : Type} (processOutput : String → T)
    (validateResult : T → ValidationResult) (task input model fallbackModel : String)
    (temperature confidenceThreshold : ℚ) (maxIterations timeoutMs : Nat)
    (useCache : Bool) (key : String) (env : MCPEnv) (cache : CacheMap T) :
    MCPCallResult T :=
  let pr := mcpMain processOutput validateResult env.responses task input model
    fallbackModel temperature confidenceThreshold maxIterations env.startTime env.endTime
  let returned : Except MCPError (MCPResult T) :=
    if env.procDelay < timeoutMs then
      match pr.outcome with
      | .success r _ => .ok r
      | .failure => .error .upstream
    else .error .timeout
  let cacheAfter : CacheMap T :=
    match pr.outcome with
    | .success r false =>
      if useCache then cacheSet cache key ⟨r, env.endTime, task⟩ else cache
    | _ => cache
  ⟨returned, cacheAfter, pr.requests⟩

/-- Shallow embedding of `useMCP` (mcp.ts lines 53-215): option defaults of
lines 60-69, cache key and cache check of lines 71-82, then the raced main
procedure. -/
def useMCP {T : Type} (task input : String) (processOutput : String → T)
    (validateResult : T → ValidationResult) (options : MCPOptions)
    (env : MCPEnv) (cache : CacheMap T) : MCPCallResult T :=
  let maxIterations := options.maxIterations.getD 2
  let temperature := options.temperature.getD (mkRat 1 5)
  let model := options.model.getD "gpt-4o"
  let fallbackModel := options.fallbackModel.getD "gpt-3.5-turbo"
  let timeoutMs := options.timeout.getD 30000
  let useCache := options.useCache.getD true
  let confidenceThreshold := options.confidenceThreshold.getD (mkRat 4 5)
  let key := cacheKey task input model (numToStr temperature)
  match mcpCacheCheck useCache cache key task env.startTime with
  | (some r, cache1) => ⟨.ok r, cache1, []⟩
  | (none, cache1) =>
    useMCPProceed processOutput validateResult task input model fallbackModel
      temperature confidenceThreshold maxIterations timeoutMs useCache key env cache1

/-! ### LaTeX validator (`validateLatexMCP`, math-mcp.ts lines 6-57) -/

/-- The curly brace characters, written by code point. -/
def lbraceCh : Char := Char.ofNat 123

/-- The closing curly brace character. -/
def rbraceCh : Char := Char.ofNat 125

/-- Shallow embedding of the inner `bracketBalance` helper (math-mcp.ts
lines 8-16): both `if`s of the loop body run for every character, so when
`openCh = closeCh` the counter is incremented and immediately decremented. -/
def bracketBalanceGo (openCh closeCh : Char) : List Char → Int → Bool
  | [], count => count == 0
  | c :: rest, count =>
    let c1 : Int := if c = openCh then count + 1 else count
    let c2 : Int := if c = closeCh then c1 - 1 else c1
    if c2 < 0 then false else bracketBalanceGo openCh closeCh rest c2

/-- `bracketBalance(str, open, close)` of math-mcp.ts. -/
def bracketBalance (str : String) (openCh closeCh : Char) : Bool :=
  bracketBalanceGo openCh closeCh str.toList 0

/-- ASCII letter test (`[a-zA-Z]`). -/
def isAsciiLetter (c : Char) : Bool :=
  ('a' ≤ c && c ≤ 'z') || ('A' ≤ c && c ≤ 'Z')

/-- JavaScript regex `\s` on the characters these inputs use (space, tab,
newline, carriage return, form feed, vertical tab, no-break space; the
remaining Unicode space code points are omitted from the model). -/
def isJsWs (c : Char) : Bool :=
  c = ' ' || c = '\t' || c = '\n' || c = '\r' ||
  c = Char.ofNat 12 || c = Char.ofNat 11 || c = Char.ofNat 160

/-- Model of `latex.match(/\\begin\{([^}]+)\}/g)` followed by re-capturing
the group of each match: collect, left to right and non-overlapping, every
capture of `tag` followed by one-or-more non-`}` characters and a closing
`}`.  Greedy `[^}]+` is `takeWhile (· ≠ rbraceCh)`; on a failed match the
scan advances one character, on a success it continues after the match.
`fuel` starts at the input length and dominates the number of steps. -/
def envCapturesGo (tag : List Char) : Nat → List Char → List String
  | 0, _ => []
  | _ + 1, [] => []
  | fuel + 1, c :: rest =>
    if tag.isPrefixOf (c :: rest) then
      let after := (c :: rest).drop tag.length
      let body := after.takeWhile (· ≠ rbraceCh)
      if body ≠ [] ∧ after.drop body.length ≠ [] then
        String.mk body :: envCapturesGo tag fuel (after.drop (body.length + 1))
      else envCapturesGo tag fuel rest
    else envCapturesGo tag fuel rest

/-- Captures of `\begin{...}` (or `\end{...}`) environments in `latex`. -/
def envCaptures (tag : String) (latex : String) : List String :=
  envCapturesGo tag.toList latex.toList.length latex.toList

/-- `hasBalancedEnvironments` (math-mcp.ts lines 25-32): the `\begin`
captures and the `\end` captures agree in number and pointwise, i.e. the two
capture lists are equal. -/
def hasBalancedEnvironments (latex : String) : Bool :=
  envCaptures ("\\begin" ++ String.mk [lbraceCh]) latex =
    envCaptures ("\\end" ++ String.mk [lbraceCh]) latex

/-- Model of `/\\[a-zA-Z]+\s[a-zA-Z]/.test(latex)` (math-mcp.ts line 35):
somewhere a backslash is followed by one or more letters, a whitespace
character and a letter.  Backtracking inside the greedy `[a-zA-Z]+` cannot
help (stopping early leaves a letter where `\s` must match), so the run is
maximal. -/
def hasCmdNoBrace : List Char → Bool
  | [] => false
  | c :: rest =>
    (if c = '\\' then
      let run := rest.takeWhile isAsciiLetter
      (run ≠ [] : Bool) &&
        (match rest.drop run.length with
         | w :: l :: _ => isJsWs w && isAsciiLetter l
         | _ => false)
     else false) || hasCmdNoBrace rest

/-- Model of `/[0-9][a-zA-Z]/.test(latex)` (math-mcp.ts line 36). -/
def hasDigitLetter : List Char → Bool
  | a :: b :: rest => (a.isDigit && isAsciiLetter b) || hasDigitLetter (b :: rest)
  | _ => false

/-- The `feedbackItems` array built by `validateLatexMCP` (math-mcp.ts lines
39-47), in push order. -/
def latexFeedbackItems (latex : String) : List String :=
  (if bracketBalance latex lbraceCh rbraceCh = false then
    ["unbalanced curly braces \x7b\x7d"] else []) ++
  (if bracketBalance latex '[' ']' = false then
    ["unbalanced square brackets []"] else []) ++
  (if bracketBalance latex '(' ')' = false then
    ["unbalanced parentheses ()"] else []) ++
  (if bracketBalance latex '$' '$' = false then
    ["unbalanced dollar signs $"] else []) ++
  (if hasBalancedEnvironments latex = false then
    ["unbalanced LaTeX environments"] else []) ++
  (if hasCmdNoBrace latex.toList = true then
    ["commands without proper braces"] else []) ++
  (if hasDigitLetter latex.toList = true then
    ["missing operators between numbers and variables"] else [])

/-- Shallow embedding of `validateLatexMCP` (math-mcp.ts lines 6-57). -/
def validateLatexMCP (latex : String) : ValidationResult :=
  let valid := bracketBalance latex lbraceCh rbraceCh &&
    bracketBalance latex '[' ']' && bracketBalance latex '(' ')' &&
    bracketBalance latex '$' '$' && hasBalancedEnvironments latex &&
    !hasCmdNoBrace latex.toList && !hasDigitLetter latex.toList
  { valid := valid,
    feedback :=
      if valid then none
      else some ("LaTeX has issues: " ++
        String.intercalate ", " (latexFeedbackItems latex) ++ "."),
    confidence := none }

/-! ### Helper definitions and lemmas for the theorems -/

/-- Number of LLM calls in a request trace that completed with a response
(request/response round-trips actually performed). -/
def countOk (l : List MCPRequest) : Nat :=
  l.countP (fun r => r.response.isOk)

/-- Confidence field of a returned result, `none` on a propagated error. -/
def confOf {T : Type} (r : Except MCPError (MCPResult T)) : Option ℚ :=
  match r with
  | .ok x => x.confidence
  | .error _ => none

/-- Two strings with equal character data are equal. -/
theorem str_data_inj {s t : String} (h : s.data = t.data) : s = t := by
  cases s
  cases t
  exact congrArg String.mk h

/-- Membership in a conditional singleton forces the element. -/
theorem mem_ite_singleton {c : Prop} [Decidable c] {x a : String}
    (h : x ∈ if c then [a] else ([] : List String)) : x = a := by
  split at h
  · simpa using h
  · simp at h

/-- A successful `Except` is an `ok`. -/
theorem isOk_exists {e : Except Unit String} (h : e.isOk = true) : ∃ s, e = .ok s := by
  cases e with
  | error x => simp [Except.isOk, Except.toBool] at h
  | ok s => exact ⟨s, rfl⟩

/-- Looking up the key just written finds the fresh entry. -/
theorem cacheFind_set_self {T : Type} (m : CacheMap T) (k : String) (e : CacheEntry T) :
    cacheFind (cacheSet m k e) k = some e := by
  simp [cacheSet, cacheFind]

/-- Deleting a key removes every binding of it. -/
theorem cacheFind_delete_self {T : Type} (m : CacheMap T) (k : String) :
    cacheFind (cacheDelete m k) k = none := by
  induction m with
  | nil => rfl
  | cons hd rest ih =>
    obtain ⟨k0, e⟩ := hd
    by_cases h : k0 = k
    · simp [cacheDelete, h, ih]
    · simp [cacheDelete, cacheFind, h, ih]

/-- Appending one request adds its own success bit to the round-trip count. -/
theorem countOk_append_one (l : List MCPRequest) (r : MCPRequest) :
    countOk (l ++ [r]) = countOk l + (if r.response.isOk then 1 else 0) := by
  simp [countOk, List.countP_append, List.countP_cons]

/-- With identical opening and closing characters the counter of
`bracketBalance` is restored by every character, so it never dips below
zero and finishes where it started. -/
theorem bracketBalanceGo_same_char (ch : Char) :
    ∀ (l : List Char) (count : Int), 0 ≤ count →
      bracketBalanceGo ch ch l count = (count == 0) := by
  intro l
  induction l with
  | nil => intro count _; rfl
  | cons c rest ih =>
    intro count hge
    by_cases hc : c = ch
    · have : bracketBalanceGo ch ch (c :: rest) count =
          if (count : Int) + 1 - 1 < 0 then false
          else bracketBalanceGo ch ch rest (count + 1 - 1) := by
        simp [bracketBalanceGo, hc]
      rw [this]
      have h1 : ¬((count : Int) + 1 - 1 < 0) := by omega
      rw [if_neg h1]
      have h2 : (count : Int) + 1 - 1 = count := by omega
      rw [h2]
      exact ih count hge
    · have : bracketBalanceGo ch ch (c :: rest) count =
          if (count : Int) < 0 then false
          else bracketBalanceGo ch ch rest count := by
        simp [bracketBalanceGo, hc]
      rw [this]
      rw [if_neg (by omega)]
      exact ih count hge

/-! ### Claim theorems -/

/-- C10: for every input string, the dollar-sign balance check inside
`validateLatexMCP` (`bracketBalance` with `$` as both the open and the close
character) returns `true`, because each `$` increments and then immediately
decrements the counter; consequently the `unbalanced dollar signs $`
feedback item is never produced and no input is reported invalid on account
of dollar signs. -/
theorem validateLatex_dollar_check_vacuous :
    ∀ s : String, bracketBalance s '$' '$' = true ∧
      "unbalanced dollar signs $" ∉ latexFeedbackItems s := by
  intro s
  have hd : bracketBalance s '$' '$' = true := by
    have := bracketBalanceGo_same_char '$' s.toList 0 (by omega)
    simpa [bracketBalance] using this
  refine ⟨hd, ?_⟩
  intro hmem
  simp only [latexFeedbackItems, List.mem_append] at hmem
  rcases hmem with ((((((h | h) | h) | h) | h) | h) | h)
  · exact absurd (mem_ite_singleton h) (by decide)
  · exact absurd (mem_ite_singleton h) (by decide)
  · exact absurd (mem_ite_singleton h) (by decide)
  · rw [hd] at h
    simp at h
  · exact absurd (mem_ite_singleton h) (by decide)
  · exact absurd (mem_ite_singleton h) (by decide)
  · exact absurd (mem_ite_singleton h) (by decide)

/-- C9: a cache entry inserted at time `tIns` with matching task is returned
by the cache lookup at any time strictly before `tIns + TTL` (TTL fixed at
one hour) and the store is left unchanged; at or after `tIns + TTL` it is
not returned and is evicted as part of the lookup; an entry whose stored
task differs from the requested task is never returned. -/
theorem mcpCache_ttl_and_task {T : Type} :
    ∀ (cache : CacheMap T) (r : MCPResult T) (tIns now : Int) (key task : String),
      (now < tIns + CACHE_TTL_MS →
        mcpCacheCheck true (cacheSet cache key ⟨r, tIns, task⟩) key task now =
          (some r, cacheSet cache key ⟨r, tIns, task⟩)) ∧
      (tIns + CACHE_TTL_MS ≤ now →
        (mcpCacheCheck true (cacheSet cache key ⟨r, tIns, task⟩) key task now).1 = none ∧
        cacheFind (mcpCacheCheck true (cacheSet cache key ⟨r, tIns, task⟩) key task now).2
          key = none) ∧
      (∀ e : CacheEntry T, cacheFind cache key = some e → e.task ≠ task →
        (mcpCacheCheck true cache key task now).1 = none) := by
  intro cache r tIns now key task
  refine ⟨?_, ?_, ?_⟩
  · intro h
    simp only [mcpCacheCheck, cacheFind_set_self, if_true]
    rw [if_pos ⟨by omega, trivial⟩]
  · intro h
    have hcond : ¬(now - tIns < CACHE_TTL_MS ∧ True) := fun hc => absurd hc.1 (by omega)
    constructor
    · simp only [mcpCacheCheck, cacheFind_set_self, if_true]
      rw [if_neg hcond]
    · simp only [mcpCacheCheck, cacheFind_set_self, if_true]
      rw [if_neg hcond]
      exact cacheFind_delete_self _ _
  · intro e he hne
    simp only [mcpCacheCheck, he, if_true]
    rw [if_neg (fun hc => hne hc.2)]

/-- Witness for `mcpCache_ttl_and_task` at concrete inputs: a lookup 10 ms
after insertion returns the entry, a lookup one hour later misses and
evicts. -/
theorem mcpCache_ttl_and_task_witness :
    mcpCacheCheck true
        (cacheSet ([] : CacheMap String) "k" ⟨⟨"x", 1, "", none, none, "m", 0⟩, 0, "t"⟩)
        "k" "t" 10 =
      (some ⟨"x", 1, "", none, none, "m", 0⟩,
        cacheSet ([] : CacheMap String) "k" ⟨⟨"x", 1, "", none, none, "m", 0⟩, 0, "t"⟩) ∧
    (mcpCacheCheck true
        (cacheSet ([] : CacheMap String) "k" ⟨⟨"x", 1, "", none, none, "m", 0⟩, 0, "t"⟩)
        "k" "t" 3600000).1 = none ∧
    cacheFind (mcpCacheCheck true
        (cacheSet ([] : CacheMap String) "k" ⟨⟨"x", 1, "", none, none, "m", 0⟩, 0, "t"⟩)
        "k" "t" 3600000).2 "k" = none :=
  ⟨(mcpCache_ttl_and_task [] ⟨"x", 1, "", none, none, "m", 0⟩ 0 10 "k" "t").1 (by decide),
   (mcpCache_ttl_and_task [] ⟨"x", 1, "", none, none, "m", 0⟩ 0 3600000 "k" "t").2.1
     (by decide)⟩

/-- C8: the cache key built from (task, input, model, stringified
temperature) is a deterministic function of its components, and two keys
whose components agree on three fields and differ in exactly one field are
distinct (equivalently, key equality with three fields shared forces the
fourth to agree).  Determinism is definitional in the embedding (the key is
a pure function of its arguments). -/
theorem cacheKey_deterministic_and_injective :
    (∀ t i m p, cacheKey t i m p = cacheKey t i m p) ∧
    (∀ t t' i m p, cacheKey t i m p = cacheKey t' i m p → t = t') ∧
    (∀ t i i' m p, cacheKey t i m p = cacheKey t i' m p → i = i') ∧
    (∀ t i m m' p, cacheKey t i m p = cacheKey t i m' p → m = m') ∧
    (∀ t i m p p', cacheKey t i m p = cacheKey t i m p' → p = p') := by
  have hu : ("_" : String).data = ['_'] := rfl
  refine ⟨fun _ _ _ _ => rfl, ?_, ?_, ?_, ?_⟩
  · intro t t' i m p h
    have h1 := congrArg String.data h
    simp only [cacheKey, String.data_append, hu, List.append_assoc,
      List.singleton_append] at h1
    exact str_data_inj (List.append_cancel_right h1)
  · intro t i i' m p h
    have h1 := congrArg String.data h
    simp only [cacheKey, String.data_append, hu, List.append_assoc,
      List.singleton_append] at h1
    have h2 := List.append_cancel_left h1
    injection h2 with _ h3
    exact str_data_inj (List.append_cancel_right h3)
  · intro t i m m' p h
    have h1 := congrArg String.data h
    simp only [cacheKey, String.data_append, hu, List.append_assoc,
      List.singleton_append] at h1
    have h2 := List.append_cancel_left h1
    injection h2 with _ h3
    have h4 := List.append_cancel_left h3
    injection h4 with _ h5
    exact str_data_inj (List.append_cancel_right h5)
  · intro t i m p p' h
    have h1 := congrArg String.data h
    simp only [cacheKey, String.data_append, hu, List.append_assoc,
      List.singleton_append] at h1
    have h2 := List.append_cancel_left h1
    injection h2 with _ h3
    have h4 := List.append_cancel_left h3
    injection h4 with _ h5
    have h6 := List.append_cancel_left h5
    injection h6 with _ h7
    exact str_data_inj h7

/-- Witness for `cacheKey_deterministic_and_injective`: the input-field
cancellation applied at concrete component strings. -/
theorem cacheKey_deterministic_and_injective_witness : ("b" : String) = "b" :=
  cacheKey_deterministic_and_injective.2.2.1 "a" "b" "b" "c" "d" rfl

/-- C7 (counterexample): on the input `<confidence>0.9</confidence>` both
the reasoning tag and the result tag are absent, and the parser does return
the entire trimmed input as the result with empty reasoning — but the
confidence is the parsed 0.9 from the confidence tag, not the claimed
default of 0.5. -/
theorem extractMCP_degenerate_confidence_counterexample :
    matchTag "<confidence>0.9</confidence>" "<thinking>" "</thinking>" = none ∧
    matchTag "<confidence>0.9</confidence>" "<result>" "</result>" = none ∧
    extractMCPComponents "<confidence>0.9</confidence>" =
      ⟨"", "<confidence>0.9</confidence>", mkRat 9 10⟩ ∧
    mkRat 9 10 ≠ mkRat 1 2 := by
  refine ⟨by decide, by decide, by decide, by decide⟩

/-- C7 (amended): the parser is total by construction, and whenever both the
reasoning tag and the result tag are absent from the input it returns the
entire trimmed input as the result with empty reasoning; the confidence is
the default 0.5 whenever the confidence tag is also absent (when a
confidence tag with a valid value is present, that value is kept — see the
counterexample). -/
theorem extractMCP_degenerate_case :
    ∀ s : String,
      matchTag s "<thinking>" "</thinking>" = none →
      matchTag s "<result>" "</result>" = none →
      (extractMCPComponents s).thinking = "" ∧
      (extractMCPComponents s).result = jsTrim s ∧
      (matchTag s "<confidence>" "</confidence>" = none →
        (extractMCPComponents s).confidence = mkRat 1 2) := by
  intro s h1 h2
  refine ⟨?_, ?_, ?_⟩
  · simp [extractMCPComponents, h1, h2]
  · simp [extractMCPComponents, h1, h2]
  · intro h3
    simp [extractMCPComponents, h1, h2, h3]

/-- Witness for `extractMCP_degenerate_case` on a tag-free input. -/
theorem extractMCP_degenerate_case_witness :
    (extractMCPComponents "just text").thinking = "" ∧
    (extractMCPComponents "just text").result = jsTrim "just text" ∧
    (extractMCPComponents "just text").confidence = mkRat 1 2 := by
  obtain ⟨a, b, c⟩ := extractMCP_degenerate_case "just text" (by decide) (by decide)
  exact ⟨a, b, c (by decide)⟩

/-- C1: evidence of the cache-write-after-timeout bug at a concrete input.
With default options, an always-valid validator and a processing delay of
60000 ms against the 30000 ms default timeout, the call fails with the
timeout error — but the processing promise, which `Promise.race` does not
cancel, still completes and executes the cache store of mcp.ts lines
172-179, so the invocation does leave its late result in the cache. -/
theorem useMCP_timeout_still_writes_cache :
    (useMCP "t" "i" (fun s => s) (fun _ => ⟨true, none, some 1⟩) {}
      ⟨fun _ => .ok "<result>x</result>", 60000, 100, 200⟩ []).returned =
        .error .timeout ∧
    (cacheFind (useMCP "t" "i" (fun s => s) (fun _ => ⟨true, none, some 1⟩) {}
      ⟨fun _ => .ok "<result>x</result>", 60000, 100, 200⟩ []).cache
      (cacheKey "t" "i" "gpt-4o" (numToStr (mkRat 1 5)))).isSome = true := by
  refine ⟨by decide, by decide⟩

/-- C2 (counterexample): an invocation with default options (caching
enabled) whose primary call fails and whose fallback call succeeds completes
successfully, yet writes nothing to the cache — the fallback result is
returned from the `catch` block of mcp.ts line 195, which skips the cache
store of lines 172-179. -/
theorem useMCP_fallback_success_not_cached :
    ((useMCP "t" "i" (fun s => s) (fun _ => ⟨true, none, some 1⟩) {}
      ⟨fun n => if n = 0 then .error () else .ok "<result>y</result>", 100, 100, 200⟩
      []).returned).isOk = true ∧
    (useMCP "t" "i" (fun s => s) (fun _ => ⟨true, none, some 1⟩) {}
      ⟨fun n => if n = 0 then .error () else .ok "<result>y</result>", 100, 100, 200⟩
      []).cache = [] := by
  refine ⟨by decide, by decide⟩

/-- C2 (amended): with caching enabled, a primary-path success is stored in
the cache under the computed key with the settlement-time timestamp; a
fallback success returns without writing to the cache; a valid cache hit
returns the stored entry unchanged, without updating its timestamp. -/
theorem useMCP_cache_store_policy {T : Type} :
    (∀ (processOutput : String → T) (validateResult : T → ValidationResult)
        (task input model fallbackModel : String) (temperature confidenceThreshold : ℚ)
        (maxIterations timeoutMs : Nat) (key : String) (env : MCPEnv) (cache : CacheMap T)
        (r : MCPResult T),
      (mcpMain processOutput validateResult env.responses task input model fallbackModel
          temperature confidenceThreshold maxIterations env.startTime env.endTime).outcome =
        .success r false →
      (useMCPProceed processOutput validateResult task input model fallbackModel
          temperature confidenceThreshold maxIterations timeoutMs true key env cache).cache =
        cacheSet cache key ⟨r, env.endTime, task⟩) ∧
    (∀ (processOutput : String → T) (validateResult : T → ValidationResult)
        (task input model fallbackModel : String) (temperature confidenceThreshold : ℚ)
        (maxIterations timeoutMs : Nat) (useCache : Bool) (key : String) (env : MCPEnv)
        (cache : CacheMap T) (r : MCPResult T),
      (mcpMain processOutput validateResult env.responses task input model fallbackModel
          temperature confidenceThreshold maxIterations env.startTime env.endTime).outcome =
        .success r true →
      (useMCPProceed processOutput validateResult task input model fallbackModel
          temperature confidenceThreshold maxIterations timeoutMs useCache key env
          cache).cache = cache) ∧
    (∀ (task input : String) (processOutput : String → T)
        (validateResult : T → ValidationResult) (options : MCPOptions) (env : MCPEnv)
        (cache : CacheMap T) (e : CacheEntry T),
      options.useCache.getD true = true →
      cacheFind cache (cacheKey task input (options.model.getD "gpt-4o")
        (numToStr (options.temperature.getD (mkRat 1 5)))) = some e →
      env.startTime - e.timestamp < CACHE_TTL_MS →
      e.task = task →
      useMCP task input processOutput validateResult options env cache =
        ⟨.ok e.result, cache, []⟩) := by
  refine ⟨?_, ?_, ?_⟩
  · intro pO vR task input model fb temp thr maxIter timeoutMs key env cache r hm
    simp only [useMCPProceed]
    rw [hm]
    simp
  · intro pO vR task input model fb temp thr maxIter timeoutMs useCache key env cache r hm
    simp only [useMCPProceed]
    rw [hm]
  · intro task input pO vR options env cache e hu hf hfresh htask
    simp only [useMCP, hu, mcpCacheCheck, hf, if_true]
    rw [if_pos ⟨hfresh, htask⟩]

/-- Witness for `useMCP_cache_store_policy`: a concrete primary-path success
is stored under the key with the settlement timestamp. -/
theorem useMCP_cache_store_policy_witness :
    (useMCPProceed (T := String) (fun s => s) (fun _ => ⟨true, none, some 1⟩)
        "t" "i" "gpt-4o" "gpt-3.5-turbo" (mkRat 1 5) (mkRat 4 5) 2 30000 true "k"
        ⟨fun _ => .ok "<result>x</result>", 100, 100, 200⟩ []).cache =
      cacheSet [] "k" ⟨⟨"x", 1, "", some "x", some 1, "gpt-4o", 100⟩, 200, "t"⟩ :=
  useMCP_cache_store_policy.1 (fun s => s) (fun _ => ⟨true, none, some 1⟩)
    "t" "i" "gpt-4o" "gpt-3.5-turbo" (mkRat 1 5) (mkRat 4 5) 2 30000 "k"
    ⟨fun _ => .ok "<result>x</result>", 100, 100, 200⟩ []
    ⟨"x", 1, "", some "x", some 1, "gpt-4o", 100⟩ (by decide)

/-- C3 (counterexample): a validator that supplies `confidence = 0` on the
first validation does not make the current confidence 0 — the JavaScript
`validation.confidence || 0.5` of mcp.ts line 125 treats the supplied 0 as
falsy and substitutes 0.5, which the single-iteration run returns. -/
theorem useMCP_confidence_zero_counterexample :
    confOf (useMCP "t" "i" (fun s => s) (fun _ => ⟨true, none, some 0⟩)
        { maxIterations := some 1 }
        ⟨fun _ => .ok "<result>x</result>", 100, 100, 200⟩ []).returned =
      some (mkRat 1 2) ∧
    some (mkRat 1 2) ≠ (some 0 : Option ℚ) := by
  refine ⟨by decide, by decide⟩

/-- A single-round invocation (`maxIterations = 1`) whose validator reports
valid with the given confidence; used to state the confidence rule. -/
def mcpC3run1 (c : Option ℚ) : MCPCallResult String :=
  useMCP "t" "i" (fun s => s) (fun _ => ⟨true, none, c⟩) { maxIterations := some 1 }
    ⟨fun _ => .ok "<result>a</result>", 100, 100, 200⟩ []

/-- A two-round invocation whose validator reports invalid with confidence
`c1` on the first result (`a`) and invalid with confidence `c2` on the
refined result (`b`); used to state the confidence-update rule. -/
def mcpC3run2 (c1 c2 : Option ℚ) : MCPCallResult String :=
  useMCP "t" "i" (fun s => s)
    (fun s => if s = "a" then ⟨false, none, c1⟩ else ⟨false, none, c2⟩)
    { maxIterations := some 2 }
    ⟨fun n => if n = 0 then .ok "<result>a</result>" else .ok "<result>b</result>",
      100, 100, 200⟩ []

/-- C3 (amended): after the first validation the current confidence equals
the outcome's confidence when it is supplied and nonzero, and 0.5 when it is
absent or 0; on a refinement iteration the confidence is updated to the new
outcome's confidence when supplied and nonzero, and retains the previous
confidence when the new outcome omits one or supplies 0 (JavaScript `||`
treats 0 as falsy at mcp.ts lines 125 and 158). -/
theorem useMCP_confidence_rule :
    (∀ c : Option ℚ, confOf (mcpC3run1 c).returned =
      some (match c with
        | none => mkRat 1 2
        | some x => if x = 0 then mkRat 1 2 else x)) ∧
    (∀ c1 c2 : Option ℚ, confOf (mcpC3run2 c1 c2).returned =
      some (match c2 with
        | none =>
          match c1 with
          | none => mkRat 1 2
          | some x => if x = 0 then mkRat 1 2 else x
        | some y =>
          if y = 0 then
            match c1 with
            | none => mkRat 1 2
            | some x => if x = 0 then mkRat 1 2 else x
          else y)) := by
  have ea : extractMCPComponents "<result>a</result>" = ⟨"", "a", mkRat 1 2⟩ := by decide
  have eb : extractMCPComponents "<result>b</result>" = ⟨"", "b", mkRat 1 2⟩ := by decide
  constructor
  · intro c
    simp [mcpC3run1, useMCP, useMCPProceed, mcpMain, mcpCacheCheck, cacheFind,
      refineLoop, refineStep, confOf, ea]
    cases c <;> simp [jsOrConf]
  · intro c1 c2
    simp [mcpC3run2, useMCP, useMCPProceed, mcpMain, mcpCacheCheck, cacheFind,
      refineLoop, refineStep, confOf, ea, eb]
    cases c1 <;> cases c2 <;> simp [jsOrConf]

/-- C6: when the primary LLM call rejects and a fallback model is configured
(nonempty) and distinct from the model in use, the engine issues exactly one
additional non-iterative request, addressed to the fallback model; if that
request succeeds the call returns `iterations = 1`, `confidence = 0.5` and
reasoning prefixed with the `[FALLBACK MODEL]` marker, and if it rejects the
error propagates to the caller; with no distinct nonempty fallback the
original error propagates after the single primary request. -/
theorem useMCP_fallback_behavior {T : Type} :
    ∀ (pO : String → T) (vR : T → ValidationResult)
      (task input model fb : String) (temp thr : ℚ) (maxIter timeoutMs : Nat)
      (useCache : Bool) (key : String) (env : MCPEnv) (cache : CacheMap T),
      env.responses 0 = .error () →
      env.procDelay < timeoutMs →
      ((model ≠ fb ∧ fb ≠ "") →
        (useMCPProceed pO vR task input model fb temp thr maxIter timeoutMs useCache
            key env cache).requests =
          [⟨constructMCPPrompt task input, model, temp, .error ()⟩,
           ⟨constructMCPPrompt task input, fb, temp, env.responses 1⟩] ∧
        (∀ s, env.responses 1 = .ok s →
          (useMCPProceed pO vR task input model fb temp thr maxIter timeoutMs useCache
              key env cache).returned =
            .ok ⟨pO (extractMCPComponents s).result, 1,
              "[FALLBACK MODEL] " ++ (extractMCPComponents s).thinking, none,
              some (mkRat 1 2), fb, env.endTime - env.startTime⟩) ∧
        (env.responses 1 = .error () →
          (useMCPProceed pO vR task input model fb temp thr maxIter timeoutMs useCache
              key env cache).returned = .error .upstream)) ∧
      (¬(model ≠ fb ∧ fb ≠ "") →
        (useMCPProceed pO vR task input model fb temp thr maxIter timeoutMs useCache
            key env cache).returned = .error .upstream ∧
        (useMCPProceed pO vR task input model fb temp thr maxIter timeoutMs useCache
            key env cache).requests =
          [⟨constructMCPPrompt task input, model, temp, .error ()⟩]) := by
  intro pO vR task input model fb temp thr maxIter timeoutMs useCache key env cache h0 hrace
  constructor
  · intro hfb
    refine ⟨?_, ?_, ?_⟩
    · simp only [useMCPProceed, mcpMain, h0, runFallback]
      rw [if_pos hfb]
      cases h1 : env.responses 1 <;> simp [h1]
    · intro s h1
      simp only [useMCPProceed, mcpMain, h0, runFallback]
      rw [if_pos hfb]
      simp [h1, hrace]
    · intro h1
      simp only [useMCPProceed, mcpMain, h0, runFallback]
      rw [if_pos hfb]
      simp [h1, hrace]
  · intro hfb
    constructor
    · simp only [useMCPProceed, mcpMain, h0]
      rw [if_neg hfb]
      simp [hrace]
    · simp only [useMCPProceed, mcpMain, h0]
      rw [if_neg hfb]

/-- Witness for `useMCP_fallback_behavior`: a concrete run whose primary
call rejects and whose fallback call answers; the returned result carries
`iterations = 1`, confidence 0.5, the fallback marker and the fallback
model. -/
theorem useMCP_fallback_behavior_witness :
    (useMCPProceed (T := String) (fun s => s) (fun _ => ⟨true, none, some 1⟩)
        "t" "i" "gpt-4o" "gpt-3.5-turbo" (mkRat 1 5) (mkRat 4 5) 2 30000 true "k"
        ⟨fun n => if n = 0 then .error ()
          else .ok "<thinking>ft</thinking><result>x</result>", 100, 100, 200⟩
        []).returned =
      .ok ⟨"x", 1, "[FALLBACK MODEL] ft", none, some (mkRat 1 2), "gpt-3.5-turbo",
        100⟩ := by
  have h := (useMCP_fallback_behavior (T := String) (fun s => s)
    (fun _ => ⟨true, none, some 1⟩) "t" "i" "gpt-4o" "gpt-3.5-turbo"
    (mkRat 1 5) (mkRat 4 5) 2 30000 true "k"
    ⟨fun n => if n = 0 then .error ()
      else .ok "<thinking>ft</thinking><result>x</result>", 100, 100, 200⟩
    [] rfl (by decide)).1 (by decide)
  have h2 := h.2.1 "<thinking>ft</thinking><result>x</result>" rfl
  rw [h2]
  decide

/-- Through any successful run of the refinement loop, `iterations` stays
equal to the number of completed round-trips recorded in the request trace,
never decreases, and never exceeds `maxIterations` (the guard increments it
only while strictly below the bound). -/
theorem refineLoop_ok_invariant {T : Type} (pO : String → T)
    (vR : T → ValidationResult) (responses : Nat → Except Unit String)
    (task input rawResult model : String) (temp thr : ℚ) (maxIter : Nat) :
    ∀ (fuel : Nat) (st st' : MCPLoopState T),
      refineLoop pO vR responses task input rawResult model temp thr maxIter fuel st =
        (st', true) →
      st.iterations = countOk st.requests →
      st.iterations ≤ maxIter →
      st'.iterations = countOk st'.requests ∧ st'.iterations ≤ maxIter ∧
        st.iterations ≤ st'.iterations := by
  intro fuel
  induction fuel with
  | zero =>
    intro st st' h h1 h2
    simp only [refineLoop] at h
    injection h with ha _
    subst ha
    exact ⟨h1, h2, le_refl _⟩
  | succ n ih =>
    intro st st' h h1 h2
    simp only [refineLoop] at h
    by_cases hg : (st.validation.valid = false ∨ st.confidence < thr) ∧
        st.iterations < maxIter
    · rw [if_pos hg] at h
      cases hresp : responses st.callCount with
      | error e =>
        rw [hresp] at h
        injection h with _ hb
        exact absurd hb (by simp)
      | ok resp =>
        rw [hresp] at h
        have hst := ih _ st' h ?_ ?_
        · exact ⟨hst.1, hst.2.1, le_trans (Nat.le_succ _) hst.2.2⟩
        · simp [refineStep, countOk_append_one, ← h1, Except.isOk, Except.toBool]
        · exact hg.2
    · rw [if_neg hg] at h
      injection h with ha _
      subst ha
      exact ⟨h1, h2, le_refl _⟩

/-- C4 (counterexample): a run whose initial round-trip completes, whose
first refinement call rejects and whose fallback call completes finishes
without error after two completed request/response round-trips, yet reports
`iterations = 1` — the fallback return of mcp.ts line 197 ignores the
round-trip already performed. -/
theorem useMCP_iterations_fallback_counterexample :
    (mcpMain (T := String) (fun s => s) (fun _ => ⟨false, none, none⟩)
        (fun n => if n = 0 then .ok "<result>a</result>"
          else if n = 1 then .error () else .ok "<result>b</result>")
        "t" "i" "gpt-4o" "gpt-3.5-turbo" (mkRat 1 5) (mkRat 4 5) 2 100 200).outcome =
      .success ⟨"b", 1, "[FALLBACK MODEL] ", none, some (mkRat 1 2), "gpt-3.5-turbo",
        100⟩ true ∧
    countOk (mcpMain (T := String) (fun s => s) (fun _ => ⟨false, none, none⟩)
        (fun n => if n = 0 then .ok "<result>a</result>"
          else if n = 1 then .error () else .ok "<result>b</result>")
        "t" "i" "gpt-4o" "gpt-3.5-turbo" (mkRat 1 5) (mkRat 4 5) 2 100 200).requests = 2 ∧
    (1 : Nat) ≠ countOk (mcpMain (T := String) (fun s => s) (fun _ => ⟨false, none, none⟩)
        (fun n => if n = 0 then .ok "<result>a</result>"
          else if n = 1 then .error () else .ok "<result>b</result>")
        "t" "i" "gpt-4o" "gpt-3.5-turbo" (mkRat 1 5) (mkRat 4 5) 2 100 200).requests := by
  refine ⟨by decide, by decide, by decide⟩

/-- C4 (amended): for every non-cached invocation with `maxIterations ≥ 1`
that completes without error *on the primary path*, `iterations` equals the
number of completed request/response round-trips and satisfies
`1 ≤ iterations ≤ maxIterations`; an invocation that completes through the
fallback branch always reports `iterations = 1`, regardless of round-trips
completed before the failure (see the counterexample). -/
theorem useMCP_iterations_invariant {T : Type} :
    (∀ (pO : String → T) (vR : T → ValidationResult)
        (responses : Nat → Except Unit String) (task input model fb : String)
        (temp thr : ℚ) (maxIter : Nat) (t0 t1 : Int)
        (r : MCPResult T) (reqs : List MCPRequest) (mks : List String),
      1 ≤ maxIter →
      mcpMain pO vR responses task input model fb temp thr maxIter t0 t1 =
        ⟨.success r false, reqs, mks⟩ →
      r.iterations = countOk reqs ∧ 1 ≤ r.iterations ∧ r.iterations ≤ maxIter) ∧
    (∀ (pO : String → T) (vR : T → ValidationResult)
        (responses : Nat → Except Unit String) (task input model fb : String)
        (temp thr : ℚ) (maxIter : Nat) (t0 t1 : Int)
        (r : MCPResult T) (reqs : List MCPRequest) (mks : List String),
      mcpMain pO vR responses task input model fb temp thr maxIter t0 t1 =
        ⟨.success r true, reqs, mks⟩ →
      r.iterations = 1) := by
  constructor
  · intro pO vR responses task input model fb temp thr maxIter t0 t1 r reqs mks hmax hm
    simp only [mcpMain] at hm
    cases h0 : responses 0 with
    | error e =>
      simp only [h0] at hm
      by_cases hfb : model ≠ fb ∧ fb ≠ ""
      · rw [if_pos hfb] at hm
        simp only [runFallback] at hm
        cases h1 : responses 1 with
        | error e2 =>
          simp only [h1] at hm
          exact absurd (congrArg ProcReturn.outcome hm) (by simp)
        | ok s =>
          simp only [h1] at hm
          exact absurd (congrArg ProcReturn.outcome hm) (by simp)
      · rw [if_neg hfb] at hm
        exact absurd (congrArg ProcReturn.outcome hm) (by simp)
    | ok resp =>
      simp only [h0] at hm
      split at hm
      · next st heq =>
        injection hm with ha hb hc
        rw [ProcOutcome.success.injEq] at ha
        obtain ⟨har, -⟩ := ha
        have hinv := refineLoop_ok_invariant pO vR responses task input
          (extractMCPComponents resp).result model temp thr maxIter maxIter _ st heq
          (by simp [countOk, List.countP_cons, Except.isOk, Except.toBool]) hmax
        subst hb
        rw [← har]
        exact ⟨hinv.1, hinv.2.2, hinv.2.1⟩
      · next st heq =>
        by_cases hfb : model ≠ fb ∧ fb ≠ ""
        · rw [if_pos hfb] at hm
          simp only [runFallback] at hm
          cases h1 : responses st.callCount with
          | error e2 =>
            simp only [h1] at hm
            exact absurd (congrArg ProcReturn.outcome hm) (by simp)
          | ok s =>
            simp only [h1] at hm
            exact absurd (congrArg ProcReturn.outcome hm) (by simp)
        · rw [if_neg hfb] at hm
          exact absurd (congrArg ProcReturn.outcome hm) (by simp)
  · intro pO vR responses task input model fb temp thr maxIter t0 t1 r reqs mks hm
    simp only [mcpMain] at hm
    cases h0 : responses 0 with
    | error e =>
      simp only [h0] at hm
      by_cases hfb : model ≠ fb ∧ fb ≠ ""
      · rw [if_pos hfb] at hm
        simp only [runFallback] at hm
        cases h1 : responses 1 with
        | error e2 =>
          simp only [h1] at hm
          exact absurd (congrArg ProcReturn.outcome hm) (by simp)
        | ok s =>
          simp only [h1] at hm
          have ha := congrArg ProcReturn.outcome hm
          rw [ProcOutcome.success.injEq] at ha
          rw [← ha.1]
      · rw [if_neg hfb] at hm
        exact absurd (congrArg ProcReturn.outcome hm) (by simp)
    | ok resp =>
      simp only [h0] at hm
      split at hm
      · next st heq =>
        exact absurd (congrArg ProcReturn.outcome hm) (by simp)
      · next st heq =>
        by_cases hfb : model ≠ fb ∧ fb ≠ ""
        · rw [if_pos hfb] at hm
          simp only [runFallback] at hm
          cases h1 : responses st.callCount with
          | error e2 =>
            simp only [h1] at hm
            exact absurd (congrArg ProcReturn.outcome hm) (by simp)
          | ok s =>
            simp only [h1] at hm
            have ha := congrArg ProcReturn.outcome hm
            rw [ProcOutcome.success.injEq] at ha
            rw [← ha.1]
        · rw [if_neg hfb] at hm
          exact absurd (congrArg ProcReturn.outcome hm) (by simp)

/-- Witness for `useMCP_iterations_invariant`: a concrete primary-path run
(two round-trips, always-invalid validator) applies the invariant. -/
theorem useMCP_iterations_invariant_witness :
    (⟨"a", 2, "", some "a", some (mkRat 1 2), "m", 100⟩ : MCPResult String).iterations =
      countOk (mcpMain (T := String) (fun s => s) (fun _ => ⟨false, none, none⟩)
        (fun _ => .ok "<result>a</result>") "t" "i" "m" "fb" (mkRat 1 5) (mkRat 4 5)
        2 100 200).requests ∧
    1 ≤ (⟨"a", 2, "", some "a", some (mkRat 1 2), "m", 100⟩ : MCPResult String).iterations ∧
    (⟨"a", 2, "", some "a", some (mkRat 1 2), "m", 100⟩ : MCPResult String).iterations ≤ 2 :=
  useMCP_iterations_invariant.1 (fun s => s) (fun _ => ⟨false, none, none⟩)
    (fun _ => .ok "<result>a</result>") "t" "i" "m" "fb" (mkRat 1 5) (mkRat 4 5)
    2 100 200 ⟨"a", 2, "", some "a", some (mkRat 1 2), "m", 100⟩
    (mcpMain (T := String) (fun s => s) (fun _ => ⟨false, none, none⟩)
      (fun _ => .ok "<result>a</result>") "t" "i" "m" "fb" (mkRat 1 5) (mkRat 4 5)
      2 100 200).requests
    (mcpMain (T := String) (fun s => s) (fun _ => ⟨false, none, none⟩)
      (fun _ => .ok "<result>a</result>") "t" "i" "m" "fb" (mkRat 1 5) (mkRat 4 5)
      2 100 200).markers
    (by omega) (by rfl)

/-- Under an always-invalid validator and an always-answering LLM, the
refinement loop runs to iteration exhaustion: it performs exactly
`maxIterations - iterations` further round-trips, ends with
`iterations = maxIterations`, appends one reasoning heading per round-trip
whose parsed thinking is nonempty, and leaves the processed result of the
last response. -/
theorem refineLoop_exhaust {T : Type} (pO : String → T) (vR : T → ValidationResult)
    (responses : Nat → Except Unit String) (task input rawResult model : String)
    (temp thr : ℚ) (maxIter : Nat)
    (hval : ∀ t, (vR t).valid = false)
    (hok : ∀ n, (responses n).isOk = true) :
    ∀ (fuel : Nat) (st : MCPLoopState T),
      st.validation = vR st.processedResult →
      st.iterations ≤ maxIter →
      maxIter - st.iterations ≤ fuel →
      ∃ st',
        refineLoop pO vR responses task input rawResult model temp thr maxIter fuel st =
          (st', true) ∧
        st'.iterations = maxIter ∧
        st'.callCount = st.callCount + (maxIter - st.iterations) ∧
        st'.requests.length = st.requests.length + (maxIter - st.iterations) ∧
        countOk st'.requests = countOk st.requests + (maxIter - st.iterations) ∧
        ((∀ m s, st.callCount ≤ m → responses m = .ok s →
            (extractMCPComponents s).thinking ≠ "") →
          st'.markers.length = st.markers.length + (maxIter - st.iterations)) ∧
        (maxIter - st.iterations = 0 → st' = st) ∧
        (1 ≤ maxIter - st.iterations →
          ∀ s, responses (st.callCount + (maxIter - st.iterations) - 1) = .ok s →
            st'.processedResult = pO (extractMCPComponents s).result) := by
  intro fuel
  induction fuel with
  | zero =>
    intro st hv hle hfuel
    refine ⟨st, rfl, by omega, by omega, by omega, by omega, fun _ => by omega,
      fun _ => rfl, fun h1 => absurd h1 (by omega)⟩
  | succ n ih =>
    intro st hv hle hfuel
    by_cases hlt : st.iterations < maxIter
    · have hguard : (st.validation.valid = false ∨ st.confidence < thr) ∧
          st.iterations < maxIter := ⟨Or.inl (by rw [hv]; exact hval _), hlt⟩
      obtain ⟨s0, hs0⟩ := isOk_exists (hok st.callCount)
      set st1 := refineStep pO vR task input rawResult model temp st s0 with hst1
      have hstep : refineLoop pO vR responses task input rawResult model temp thr
          maxIter (n + 1) st =
          refineLoop pO vR responses task input rawResult model temp thr maxIter n st1 := by
        simp only [refineLoop]
        rw [if_pos hguard, hs0]
      have hpc : st1.iterations = st.iterations + 1 := by simp [hst1, refineStep]
      have hcc : st1.callCount = st.callCount + 1 := by simp [hst1, refineStep]
      have hrl : st1.requests.length = st.requests.length + 1 := by
        simp [hst1, refineStep]
      have hco : countOk st1.requests = countOk st.requests + 1 := by
        simp [hst1, refineStep, countOk_append_one, Except.isOk, Except.toBool]
      have hv1 : st1.validation = vR st1.processedResult := by simp [hst1, refineStep]
      have hle1 : st1.iterations ≤ maxIter := by rw [hpc]; omega
      have hfuel1 : maxIter - st1.iterations ≤ n := by rw [hpc]; omega
      obtain ⟨st', hrec, hiter, hcall, hreq, hcnt, hmark, hzero, hlast⟩ :=
        ih st1 hv1 hle1 hfuel1
      refine ⟨st', by rw [hstep]; exact hrec, hiter, ?_, ?_, ?_, ?_, ?_, ?_⟩
      · rw [hcall, hcc, hpc]
        omega
      · rw [hreq, hrl, hpc]
        omega
      · rw [hcnt, hco, hpc]
        omega
      · intro hthink
        have hth0 : (extractMCPComponents s0).thinking ≠ "" :=
          hthink st.callCount s0 (le_refl _) hs0
        have hm1 : st1.markers.length = st.markers.length + 1 := by
          simp only [hst1, refineStep]
          rw [if_pos hth0]
          simp
        have h2 := hmark (fun m s hm hs =>
          hthink m s (by rw [hcc] at hm; omega) hs)
        rw [h2, hm1, hpc]
        omega
      · intro h0
        exact absurd h0 (by omega)
      · intro h1 s hs
        by_cases hd1 : maxIter - st1.iterations = 0
        · have hst' := hzero hd1
          rw [hpc] at hd1
          have hidx : st.callCount + (maxIter - st.iterations) - 1 = st.callCount := by
            omega
          rw [hidx, hs0] at hs
          injection hs with hss
          rw [hst', ← hss]
          simp [hst1, refineStep]
        · have h1' : 1 ≤ maxIter - st1.iterations := by omega
          have hidx : st1.callCount + (maxIter - st1.iterations) - 1 =
              st.callCount + (maxIter - st.iterations) - 1 := by
            rw [hcc, hpc]
            omega
          exact hlast h1' s (by rw [hidx]; exact hs)
    · have hguardF : ¬((st.validation.valid = false ∨ st.confidence < thr) ∧
          st.iterations < maxIter) := fun hc => absurd hc.2 (by omega)
      refine ⟨st, ?_, by omega, by omega, by omega, by omega, fun _ => by omega,
        fun _ => rfl, fun h1 => absurd h1 (by omega)⟩
      simp only [refineLoop]
      rw [if_neg hguardF]

/-- C5 (amended): a non-cached invocation whose validator always reports
invalid and whose LLM calls all complete performs exactly `maxIterations`
round-trips and returns the last attempt's processed output without error;
the reasoning trace receives one `Refinement Iteration N` heading per
refinement whose parsed thinking is nonempty — in particular exactly
`maxIterations - 1` headings when every refinement response carries
nonempty thinking (and fewer when some refinement responses have empty
thinking, see the counterexample). -/
theorem useMCP_exhaustion {T : Type} :
    ∀ (pO : String → T) (vR : T → ValidationResult)
      (responses : Nat → Except Unit String) (task input model fb : String)
      (temp thr : ℚ) (maxIter : Nat) (t0 t1 : Int),
      (∀ t, (vR t).valid = false) →
      (∀ n, (responses n).isOk = true) →
      1 ≤ maxIter →
      ∃ r reqs mks,
        mcpMain pO vR responses task input model fb temp thr maxIter t0 t1 =
          ⟨.success r false, reqs, mks⟩ ∧
        r.iterations = maxIter ∧
        reqs.length = maxIter ∧
        countOk reqs = maxIter ∧
        ((∀ m s, 1 ≤ m → responses m = .ok s →
            (extractMCPComponents s).thinking ≠ "") →
          mks.length = maxIter - 1) ∧
        (∀ s, responses (maxIter - 1) = .ok s →
          r.finalResult = pO (extractMCPComponents s).result) := by
  intro pO vR responses task input model fb temp thr maxIter t0 t1 hval hok hmax
  obtain ⟨s0, hs0⟩ := isOk_exists (hok 0)
  obtain ⟨st', hrec, hiter, hcall, hreq, hcnt, hmark, hzero, hlast⟩ :=
    refineLoop_exhaust pO vR responses task input (extractMCPComponents s0).result
      model temp thr maxIter hval hok maxIter
      { processedResult := pO (extractMCPComponents s0).result,
        validation := vR (pO (extractMCPComponents s0).result),
        confidence := jsOrConf (vR (pO (extractMCPComponents s0).result)).confidence
          (mkRat 1 2),
        currentReasoning := (extractMCPComponents s0).thinking,
        iterations := 1,
        callCount := 1,
        requests := [⟨constructMCPPrompt task input, model, temp, .ok s0⟩],
        markers := [] }
      rfl hmax (by omega)
  refine ⟨⟨st'.processedResult, st'.iterations, st'.currentReasoning,
      some (pO (extractMCPComponents s0).result), some st'.confidence, model, t1 - t0⟩,
    st'.requests, st'.markers, ?_, hiter, ?_, ?_, ?_, ?_⟩
  · simp only [mcpMain, hs0]
    rw [hrec]
  · rw [hreq]
    simp
    omega
  · rw [hcnt]
    simp [countOk, List.countP_cons, Except.isOk, Except.toBool]
    omega
  · intro hthink
    rw [hmark hthink]
    simp
  · intro s hs
    by_cases hd : maxIter - 1 = 0
    · have hst' := hzero (by simpa using hd)
      rw [hd] at hs
      rw [hs0] at hs
      injection hs with hss
      rw [hst', ← hss]
    · have h1 : 1 ≤ maxIter - (1 : Nat) := by omega
      have hidx : (1 : Nat) + (maxIter - 1) - 1 = maxIter - 1 := by omega
      exact hlast (by simpa using h1) s (by simpa [hidx] using hs)

/-- C5 (counterexample): with an always-invalid validator, `maxIterations = 2`
and every response lacking a thinking section, the engine does perform
exactly 2 round-trips and returns the last output, but the returned
reasoning trace is empty — it contains 0 refinement-iteration markers, not
`maxIterations - 1 = 1`, because mcp.ts line 144 appends the labelled
heading only when the refined thinking is nonempty. -/
theorem useMCP_exhaustion_counterexample :
    (mcpMain (T := String) (fun s => s) (fun _ => ⟨false, none, none⟩)
        (fun _ => .ok "<result>a</result>") "t" "i" "m" "fb" (mkRat 1 5) (mkRat 4 5)
        2 100 200).outcome =
      .success ⟨"a", 2, "", some "a", some (mkRat 1 2), "m", 100⟩ false ∧
    (mcpMain (T := String) (fun s => s) (fun _ => ⟨false, none, none⟩)
        (fun _ => .ok "<result>a</result>") "t" "i" "m" "fb" (mkRat 1 5) (mkRat 4 5)
        2 100 200).markers = [] ∧
    (mcpMain (T := String) (fun s => s) (fun _ => ⟨false, none, none⟩)
        (fun _ => .ok "<result>a</result>") "t" "i" "m" "fb" (mkRat 1 5) (mkRat 4 5)
        2 100 200).markers.length ≠ 2 - 1 := by
  refine ⟨by decide, by decide, by decide⟩

/-- Witness for `useMCP_exhaustion`: a concrete always-invalid run with
`maxIterations = 2` and thinking-carrying responses. -/
theorem useMCP_exhaustion_witness :
    ∃ (r : MCPResult String) (reqs : List MCPRequest) (mks : List String),
      mcpMain (fun s => s) (fun _ => ⟨false, none, none⟩)
        (fun _ => .ok "<thinking>th</thinking><result>a</result>") "t" "i" "m" "fb"
        (mkRat 1 5) (mkRat 4 5) 2 100 200 = ⟨.success r false, reqs, mks⟩ ∧
      r.iterations = 2 ∧ reqs.length = 2 ∧ countOk reqs = 2 ∧
      ((∀ m s, 1 ≤ m →
          (.ok "<thinking>th</thinking><result>a</result>" : Except Unit String) =
            .ok s →
          (extractMCPComponents s).thinking ≠ "") →
        mks.length = 2 - 1) ∧
      (∀ s,
        (.ok "<thinking>th</thinking><result>a</result>" : Except Unit String) =
          .ok s →
        r.finalResult = (extractMCPComponents s).result) :=
  useMCP_exhaustion (fun s => s) (fun _ => ⟨false, none, none⟩)
    (fun _ => .ok "<thinking>th</thinking><result>a</result>") "t" "i" "m" "fb"
    (mkRat 1 5) (mkRat 4 5) 2 100 200 (fun _ => rfl) (fun _ => rfl) (by omega)
